import Mathlib

/-!
Verification of the SmartGrocer market-basket engine (`app/apriori_analysis.py`).

The repository's own code (`preprocess_data`, `analyze_transactions`, the body of
`run_apriori`) is translated directly from the source.  The frequent-itemset
mining step and the association-rule step are delegated by the source to an
external library (`mlxtend.frequent_patterns.apriori` / `association_rules`)
whose implementation is not part of the repository; following the spec's design
note ("the original behavior of the mining/rule steps is defined by an external
library's documented semantics ... this spec reproduces that documented behavior
explicitly"), those two components are modelled from the spec's §4.2 and §4.3.
Each such definition carries a doc comment starting `Modelled from the spec:`.

Machine reals are modelled by `ℚ` (exact arithmetic); rounding to three decimal
places is modelled by `round3`.
-/

namespace SmartGrocer

/-! ### Generic list helpers (deduplication keeping first occurrences, stable
insertion sort).  `pandas.drop_duplicates` keeps the first of each group of
equal rows; `dropDupAux` mirrors that. -/

/-- Deduplicate a list, keeping the first occurrence of each element; `seen`
holds the elements already emitted. -/
def dropDupAux [DecidableEq α] (seen : List α) : List α → List α
  | [] => []
  | x :: l => if x ∈ seen then dropDupAux seen l else x :: dropDupAux (x :: seen) l

/-- Deduplicate keeping first occurrences (the behaviour of
`DataFrame.drop_duplicates` and of `Series.unique`). -/
def dropDup [DecidableEq α] (l : List α) : List α := dropDupAux [] l

/-- Insert `a` into `l`, placing it before the first element `b` with `le a b`.
When `l` is sorted by `le`, the result is sorted, and an element equal to `a`
under `le` (both directions) keeps its position after `a`. -/
def insertSorted (le : α → α → Prop) [DecidableRel le] (a : α) : List α → List α
  | [] => [a]
  | b :: l => if le a b then a :: b :: l else b :: insertSorted le a l

/-- Stable sort by the relation `le` (insertion sort, folded from the right so
that earlier elements of the input are inserted later and therefore end up
before `le`-equivalent elements: a stable sort). -/
def sortBy (le : α → α → Prop) [DecidableRel le] (l : List α) : List α :=
  l.foldr (insertSorted le) []

/-! ### Rounding -/

/-- Rounding a rational to three decimal places (the `round(3)` /`.round(3)`
calls of the source, modelled with exact rationals and round-half-up; no value
appearing in the claims lies on a half-way tie, so the tie direction is
immaterial). -/
def round3 (q : ℚ) : ℚ := (round (q * 1000) : ℤ) / 1000

/-! ### Data model

A raw input row of the transaction table has the three columns the app
requires (`Member_number`, `Date`, `itemDescription`) plus one further column
`extra` standing for "every other column" of the caller's DataFrame. -/

/-- One raw row of the input DataFrame. -/
structure Row where
  member : Nat
  date : String
  item : String
  extra : Int
deriving DecidableEq, Repr

/-- A parsed calendar date (the result of `pd.to_datetime(.., format='%d-%m-%Y')`). -/
structure ParsedDate where
  day : Nat
  month : Nat
  year : Nat
deriving DecidableEq, Repr

/-- A row of the caller's DataFrame after `preprocess_data` has mutated the
`Date` and `itemDescription` columns in place: the date cell now holds the
parsed value (`none` standing for an unparseable/missing date, which the
spec's Normalizer drops), the item cell the cleaned string. -/
structure PRow where
  member : Nat
  date : Option ParsedDate
  item : String
  extra : Int
deriving DecidableEq, Repr

/-- A fully normalized transaction record (after `drop_duplicates` and
`dropna`): every field present. -/
structure CRow where
  member : Nat
  date : ParsedDate
  item : String
  extra : Int
deriving DecidableEq, Repr

/-- Split a character list at every dash (the `'%d-%m-%Y'` format separator). -/
def splitOnDash : List Char → List (List Char)
  | [] => [[]]
  | c :: rest =>
    match splitOnDash rest with
    | [] => [[]]
    | cur :: done => if c = '-' then [] :: cur :: done else (c :: cur) :: done

/-- The numeric value of a decimal digit character, `none` otherwise. -/
def digitVal (c : Char) : Option Nat :=
  if 48 ≤ c.toNat ∧ c.toNat ≤ 57 then some (c.toNat - 48) else none

/-- Read a non-empty all-digit character list as a decimal number. -/
def digitsToNat : Nat → List Char → Option Nat
  | acc, [] => some acc
  | acc, c :: rest =>
    match digitVal c with
    | some d => digitsToNat (10 * acc + d) rest
    | none => none

/-- Read a decimal field of the date format (empty fields do not parse). -/
def readNatField : List Char → Option Nat
  | [] => none
  | l => digitsToNat 0 l

/-- Modelled from the spec: the date parser behind
`pd.to_datetime(data['Date'], format='%d-%m-%Y', dayfirst=True)` (the library
itself is not in the repository).  A cell parses when it is three dash-
separated decimal fields with a plausible day and month; per the spec's
Normalizer contract ("parses raw records ...; drops incomplete rows") a cell
that does not parse yields `none` and the row is later dropped by `dropna`. -/
def parseDate (s : String) : Option ParsedDate :=
  match splitOnDash s.data with
  | [d, m, y] =>
    match readNatField d, readNatField m, readNatField y with
    | some dn, some mn, some yn =>
      if 1 ≤ dn ∧ dn ≤ 31 ∧ 1 ≤ mn ∧ mn ≤ 12 then some ⟨dn, mn, yn⟩ else none
    | _, _, _ => none
  | _ => none

/-- Drop leading whitespace characters. -/
def dropLeadingSpaces : List Char → List Char
  | [] => []
  | c :: rest => if c.isWhitespace then dropLeadingSpaces rest else c :: rest

/-- Strip leading and trailing whitespace (Python `str.strip()`). -/
def trimChars (l : List Char) : List Char :=
  ((dropLeadingSpaces (dropLeadingSpaces l).reverse)).reverse

/-- The item-description cleaning of the source:
`data['itemDescription'].str.strip().str.lower()`. -/
def cleanItem (s : String) : String :=
  String.mk ((trimChars s.data).map Char.toLower)

/-- The in-place column mutation performed by the first two statements of
`preprocess_data` on the caller's DataFrame. -/
def mutateRow (r : Row) : PRow :=
  ⟨r.member, parseDate r.date, cleanItem r.item, r.extra⟩

/-- `data.dropna()`: drop every row with a missing value (in this model the
only possibly-missing cell is the parsed date). -/
def dropna (l : List PRow) : List CRow :=
  l.filterMap fun p => p.date.map fun d => ⟨p.member, d, p.item, p.extra⟩

/-- `preprocess_data(data)`: parse the `Date` column and clean the
`itemDescription` column (both assignments mutate the caller's DataFrame in
place — the first component of the result is the caller-visible frame), then
`drop_duplicates()` and `dropna()` on the local copy (second component, the
value `preprocess_data` returns). -/
def preprocess_data (df : List Row) : List PRow × List CRow :=
  let frame := df.map mutateRow
  (frame, dropna (dropDup frame))

/-- The normalized records `run_apriori` actually works on. -/
def preprocessedRows (df : List Row) : List CRow := (preprocess_data df).2

/-! ### Transaction statistics (`analyze_transactions`) -/

/-- The dictionary returned by `analyze_transactions`. -/
structure Stats where
  total_transactions : Nat
  total_items : Nat
  avg_items_per_transaction : ℚ
  most_common_items : List (String × Nat)
  transaction_by_date : List (ParsedDate × Nat)
deriving DecidableEq, Repr

/-- `data['itemDescription'].value_counts()`: the distinct items, each with its
occurrence count, sorted by count descending; per spec §4.4 ties are broken by
first-seen item (the sort is stable over first-appearance order). -/
def value_counts (rows : List CRow) : List (String × Nat) :=
  sortBy (fun a b => b.2 ≤ a.2)
    ((dropDup (rows.map fun r => r.item)).map fun i =>
      (i, rows.countP fun r => decide (r.item = i)))

/-- `analyze_transactions(data)`.  The mean items per group is guarded for the
empty case — Modelled from the spec: "mean/most-common guarded against
division-by-zero / empty-collection access" (the pandas behaviour of
`mean()` on an empty series is library code not in the repository). -/
def analyze_transactions (rows : List CRow) : Stats :=
  let groups := dropDup (rows.map fun r => r.member)
  { total_transactions := groups.length
    total_items := (dropDup (rows.map fun r => r.item)).length
    avg_items_per_transaction :=
      if groups.length = 0 then 0 else
        (((groups.map fun g => rows.countP fun r => decide (r.member = g)).sum : ℕ) : ℚ)
          / (groups.length : ℚ)
    most_common_items := (value_counts rows).take 10
    transaction_by_date :=
      (dropDup (rows.map fun r => r.date)).map fun d =>
        (d, (dropDup ((rows.filter fun r => decide (r.date = d)).map fun r => r.member)).length) }

/-! ### Incidence matrix (`pd.crosstab(...).astype(bool)`) -/

/-- The boolean incidence matrix: one entry per distinct group (first-seen
order), carrying the set of distinct items present in that group. -/
def matrixOf (rows : List CRow) : List (Nat × Finset String) :=
  (dropDup (rows.map fun r => r.member)).map fun g =>
    (g, ((rows.filter fun r => decide (r.member = g)).map fun r => r.item).toFinset)

/-- Support of an itemset: the fraction of groups whose item set contains it
(spec §3).  With zero groups the quotient is `0/0 = 0` in `ℚ`, realising the
spec's "treat N=0 as: no itemsets can be frequent". -/
def support (M : List (Nat × Finset String)) (S : Finset String) : ℚ :=
  ((M.countP fun g => decide (S ⊆ g.2) : ℕ) : ℚ) / ((M.length : ℕ) : ℚ)

/-! ### Frequent-itemset miner

Modelled from the spec (§4.2): the level-wise Apriori loop — Seed, Generate by
joining, Prune by the anti-monotonicity check, Count, filter by
`min_support ≤ support` (inclusive), terminate when a level is empty.  The
library call `mlxtend.frequent_patterns.apriori` this stands for is not part
of the repository. -/

/-- The canonically sorted element list of an itemset (spec §9: itemsets map
to "immutable, canonically-ordered itemset keys"). -/
def itemsetKey (S : Finset String) : List String :=
  S.sort (· ≤ ·)

/-- The distinct items referenced by the incidence matrix. -/
def matrixItems (M : List (Nat × Finset String)) : List String :=
  dropDup (M.flatMap fun g => itemsetKey g.2)

/-- Generate(k): join pairs of size-(k−1) frequent itemsets sharing exactly
k−2 items (equivalently: whose union has size k), deduplicated set-wise. -/
def genCands (prev : List (Finset String)) : List (Finset String) :=
  dropDup (prev.flatMap fun a =>
    prev.filterMap fun b =>
      if (a ∪ b).card = a.card + 1 then some (a ∪ b) else none)

/-- Prune(k): keep a candidate only when every subset one item smaller is a
frequent itemset of the previous level. -/
def pruneStep (prev : List (Finset String)) (cands : List (Finset String)) :
    List (Finset String) :=
  cands.filter fun c =>
    decide (∀ s ∈ c.powerset, s.card = c.card - 1 → s ∈ prev)

/-- One Generate→Prune→Count→filter round per fuel step; stops when a level
comes out empty.  The fuel only bounds the level index and is always ample
(`run_apriori` passes the number of distinct items). -/
def aprioriLevels (M : List (Nat × Finset String)) (ms : ℚ) :
    Nat → List (Finset String) → List (Finset String × ℚ)
  | 0, _ => []
  | fuel + 1, prev =>
    let counted := (pruneStep prev (genCands prev)).map fun c => (c, support M c)
    let Lk := counted.filter fun p => decide (ms ≤ p.2)
    if Lk.isEmpty then [] else Lk ++ aprioriLevels M ms fuel (Lk.map fun p => p.1)

/-- Seed: every distinct item of the matrix as a 1-itemset with its support,
filtered by the (inclusive) threshold. -/
def seedLevel (M : List (Nat × Finset String)) (ms : ℚ) : List (Finset String × ℚ) :=
  ((matrixItems M).map fun i =>
      (({i} : Finset String), support M {i})).filter fun p => decide (ms ≤ p.2)

/-- The full frequent-itemset collection: the union of all levels, each itemset
tagged with its exact support. -/
def frequentItemsets (M : List (Nat × Finset String)) (ms : ℚ) :
    List (Finset String × ℚ) :=
  let L1 := seedLevel M ms
  L1 ++ aprioriLevels M ms (matrixItems M).length (L1.map fun p => p.1)

/-! ### Association rules

Modelled from the spec (§4.3): every frequent itemset of size ≥ 2 is split
into a non-empty proper antecedent (enumerated by antecedent size ascending,
then discovery order) and its complement; confidence is filtered (inclusive)
against `min_confidence` on the unrounded value; metrics are then rounded to
three decimals and the collection stably sorted by lift descending (the
`round`/`sort_values('lift', ascending=False)` lines of `run_apriori`; the
stable tie-break over first-generated order is the spec's design note). -/

/-- An association rule as returned by the engine. -/
structure Rule where
  antecedents : Finset String
  consequents : Finset String
  support : ℚ
  confidence : ℚ
  lift : ℚ
deriving DecidableEq

/-- The antecedent candidates of a frequent itemset: its non-empty proper
subsets, antecedent size ascending (stable over the enumeration order). -/
def antecedentsOf (S : Finset String) : List (Finset String) :=
  sortBy (fun a b => a.card ≤ b.card)
    (((itemsetKey S).sublists.map List.toFinset).filter fun A =>
      decide (A ≠ ∅ ∧ A ≠ S))

/-- Rule generation in first-generated order, with exact (unrounded) metrics;
only rules with unrounded confidence ≥ `mc` are kept. -/
def rawRules (M : List (Nat × Finset String)) (its : List (Finset String × ℚ))
    (mc : ℚ) : List Rule :=
  its.flatMap fun p =>
    if 2 ≤ p.1.card then
      (antecedentsOf p.1).filterMap fun A =>
        if mc ≤ p.2 / support M A then
          some ⟨A, p.1 \ A, p.2, p.2 / support M A,
            p.2 / support M A / support M (p.1 \ A)⟩
        else none
    else []

/-- The three-decimal rounding applied to a rule's metrics by `run_apriori`. -/
def roundRule (r : Rule) : Rule :=
  ⟨r.antecedents, r.consequents, round3 r.support, round3 r.confidence, round3 r.lift⟩

/-- The rule collection in first-generated order after rounding (the state of
`rules` just before the `sort_values` line). -/
def generationOrderRules (M : List (Nat × Finset String))
    (its : List (Finset String × ℚ)) (mc : ℚ) : List Rule :=
  (rawRules M its mc).map roundRule

/-- The final rule collection: rounded metrics, stably sorted by lift
descending. -/
def finalRules (M : List (Nat × Finset String)) (its : List (Finset String × ℚ))
    (mc : ℚ) : List Rule :=
  sortBy (fun a b => b.lift ≤ a.lift) (generationOrderRules M its mc)

/-! ### `run_apriori` -/

/-- Everything observable about one `run_apriori(data, min_support,
min_confidence)` call: the tuple it returns — `(frequent_itemsets, rules,
binary_data, stats)` — together with `caller_data`, the caller's DataFrame
after the call (the source mutates the `data` argument in place through
`preprocess_data`; the shallow embedding passes that state explicitly). -/
structure RunResult where
  caller_data : List PRow
  frequent_itemsets : List (Finset String × ℚ)
  rules : List Rule
  binary_data : List (Nat × Finset String)
  stats : Stats
deriving DecidableEq

/-- `run_apriori(data, min_support, min_confidence)`: preprocess, compute the
statistics, build the boolean incidence matrix, mine the frequent itemsets,
derive and post-process the rules.  No parameter validation is performed
anywhere in the pipeline (none appears in the source). -/
def run_apriori (df : List Row) (min_support min_confidence : ℚ) : RunResult :=
  let pre := preprocess_data df
  let rows := pre.2
  let stats := analyze_transactions rows
  let M := matrixOf rows
  let its := frequentItemsets M min_support
  ⟨pre.1, its, finalRules M its min_confidence, M, stats⟩

/-! ## Lemmas about the helpers -/

theorem mem_dropDupAux [DecidableEq α] {a : α} :
    ∀ {l seen : List α}, a ∈ dropDupAux seen l ↔ a ∈ l ∧ a ∉ seen := by
  intro l
  induction l with
  | nil => intro seen; simp [dropDupAux]
  | cons b l ih =>
    intro seen
    by_cases hb : b ∈ seen
    · simp only [dropDupAux, if_pos hb, ih, List.mem_cons]
      by_cases hab : a = b
      · subst hab; tauto
      · tauto
    · simp only [dropDupAux, if_neg hb, List.mem_cons, ih]
      by_cases hab : a = b
      · subst hab; tauto
      · tauto

theorem mem_dropDup [DecidableEq α] {a : α} {l : List α} :
    a ∈ dropDup l ↔ a ∈ l := by
  rw [dropDup, mem_dropDupAux]
  simp

theorem dropDupAux_append_singleton [DecidableEq α] (x : α) :
    ∀ (l seen : List α), dropDupAux seen (l ++ [x])
      = dropDupAux seen l ++ (if x ∈ seen ∨ x ∈ l then [] else [x]) := by
  intro l
  induction l with
  | nil =>
    intro seen
    by_cases hx : x ∈ seen <;> simp [dropDupAux, hx]
  | cons b l ih =>
    intro seen
    by_cases hb : b ∈ seen
    · have hcond : (x ∈ seen ∨ x ∈ l) ↔ (x ∈ seen ∨ x ∈ b :: l) := by
        simp only [List.mem_cons]
        by_cases hxb : x = b
        · subst hxb; tauto
        · tauto
      simp only [List.cons_append, dropDupAux, if_pos hb, List.append_eq, ih seen]
      congr 1
      exact if_congr hcond rfl rfl
    · have hcond : (x ∈ b :: seen ∨ x ∈ l) ↔ (x ∈ seen ∨ x ∈ b :: l) := by
        simp only [List.mem_cons]
        tauto
      simp only [List.cons_append, dropDupAux, if_neg hb, List.append_eq, ih (b :: seen)]
      congr 2
      exact if_congr hcond rfl rfl

theorem dropDup_append_singleton [DecidableEq α] (x : α) (l : List α) :
    dropDup (l ++ [x]) = dropDup l ++ (if x ∈ l then [] else [x]) := by
  rw [dropDup, dropDupAux_append_singleton, dropDup]
  simp

theorem mem_insertSorted (le : α → α → Prop) [DecidableRel le] {a x : α} :
    ∀ {l : List α}, x ∈ insertSorted le a l ↔ x = a ∨ x ∈ l := by
  intro l
  induction l with
  | nil => simp [insertSorted]
  | cons b l ih =>
    rw [insertSorted]
    by_cases h : le a b
    · simp [if_pos h, List.mem_cons]
    · rw [if_neg h]
      simp only [List.mem_cons, ih]
      tauto

theorem insertSorted_perm (le : α → α → Prop) [DecidableRel le] (a : α) :
    ∀ (l : List α), List.Perm (insertSorted le a l) (a :: l) := by
  intro l
  induction l with
  | nil => exact List.Perm.refl _
  | cons b l ih =>
    rw [insertSorted]
    by_cases h : le a b
    · rw [if_pos h]
    · rw [if_neg h]
      exact (ih.cons b).trans (List.Perm.swap a b l)

theorem sortBy_perm (le : α → α → Prop) [DecidableRel le] :
    ∀ (l : List α), List.Perm (sortBy le l) l := by
  intro l
  induction l with
  | nil => exact List.Perm.refl _
  | cons b l ih =>
    exact (insertSorted_perm le b (sortBy le l)).trans (ih.cons b)

theorem mem_sortBy (le : α → α → Prop) [DecidableRel le] {x : α} {l : List α} :
    x ∈ sortBy le l ↔ x ∈ l :=
  (sortBy_perm le l).mem_iff

theorem pairwise_insertSorted (le : α → α → Prop) [DecidableRel le]
    (htot : ∀ a b, le a b ∨ le b a)
    (htrans : ∀ {a b c}, le a b → le b c → le a c) (a : α) :
    ∀ {l : List α}, l.Pairwise le → (insertSorted le a l).Pairwise le := by
  intro l
  induction l with
  | nil => intro _; simp [insertSorted]
  | cons b l ih =>
    intro h
    rcases List.pairwise_cons.mp h with ⟨hb, hl⟩
    rw [insertSorted]
    by_cases hab : le a b
    · rw [if_pos hab]
      refine List.pairwise_cons.mpr ⟨?_, h⟩
      intro x hx
      rcases List.mem_cons.mp hx with hx | hx
      · exact hx ▸ hab
      · exact htrans hab (hb x hx)
    · rw [if_neg hab]
      refine List.pairwise_cons.mpr ⟨?_, ih hl⟩
      intro x hx
      rcases (mem_insertSorted le).mp hx with hx | hx
      · exact hx ▸ (htot a b).resolve_left hab
      · exact hb x hx

theorem pairwise_sortBy (le : α → α → Prop) [DecidableRel le]
    (htot : ∀ a b, le a b ∨ le b a)
    (htrans : ∀ {a b c}, le a b → le b c → le a c) :
    ∀ (l : List α), (sortBy le l).Pairwise le := by
  intro l
  induction l with
  | nil => simp [sortBy]
  | cons b l ih => exact pairwise_insertSorted le htot htrans b ih

theorem filter_insertSorted_key (f : α → ℚ) (v : ℚ) (r : α) :
    ∀ (l : List α),
      (insertSorted (fun a b => f b ≤ f a) r l).filter (fun s => decide (f s = v))
        = if f r = v then r :: l.filter (fun s => decide (f s = v))
          else l.filter (fun s => decide (f s = v)) := by
  intro l
  induction l with
  | nil =>
    by_cases h : f r = v <;> simp [insertSorted, List.filter, h]
  | cons b l ih =>
    rw [insertSorted]
    by_cases hle : f b ≤ f r
    · rw [if_pos hle]
      by_cases h : f r = v <;> simp [List.filter_cons, h]
    · rw [if_neg hle]
      have hbr : f r < f b := lt_of_not_le hle
      by_cases h : f r = v
      · have hbv : ¬ f b = v := by
          intro hb
          rw [hb, ← h] at hbr
          exact lt_irrefl _ hbr
        have hbd : (decide (f b = v)) = false := by simpa using hbv
        simp only [List.filter_cons, hbd, Bool.false_eq_true, if_false, ih, if_pos h]
      · simp only [List.filter_cons, ih, if_neg h]

theorem filter_sortBy_key (f : α → ℚ) (v : ℚ) :
    ∀ (l : List α),
      (sortBy (fun a b => f b ≤ f a) l).filter (fun s => decide (f s = v))
        = l.filter (fun s => decide (f s = v)) := by
  intro l
  induction l with
  | nil => rfl
  | cons b l ih =>
    show (insertSorted _ b (sortBy _ l)).filter _ = _
    rw [filter_insertSorted_key]
    by_cases h : f b = v
    · rw [if_pos h, ih, List.filter_cons, if_pos (by simpa using h)]
    · rw [if_neg h, ih, List.filter_cons, if_neg (by simpa using h)]

/-! ## Lemmas about rounding -/

theorem round3_nonneg {q : ℚ} (h : 0 ≤ q) : 0 ≤ round3 q := by
  rw [round3]
  have h1 : (0 : ℤ) ≤ round (q * 1000) := by
    rw [round_eq]
    have : (0 : ℚ) ≤ q * 1000 + 1 / 2 := by positivity
    exact_mod_cast Int.le_floor.mpr (by push_cast; linarith)
  positivity

theorem round3_le_one {q : ℚ} (h : q ≤ 1) : round3 q ≤ 1 := by
  rw [round3]
  have h1 : round (q * 1000) ≤ 1000 := by
    rw [round_eq]
    have h2 : q * 1000 + 1 / 2 ≤ 1000 + 1 / 2 := by linarith
    calc ⌊q * 1000 + 1 / 2⌋ ≤ ⌊(1000 : ℚ) + 1 / 2⌋ := Int.floor_le_floor h2
      _ = 1000 := by norm_num [Int.floor_eq_iff]
  rw [div_le_one (by norm_num)]
  exact_mod_cast h1

/-! ## Lemmas about support -/

theorem support_nonneg (M : List (Nat × Finset String)) (S : Finset String) :
    0 ≤ support M S := by
  rw [support]
  positivity

theorem support_le_one (M : List (Nat × Finset String)) (S : Finset String) :
    support M S ≤ 1 := by
  rw [support]
  rcases Nat.eq_zero_or_pos M.length with h | h
  · simp [h]
  · rw [div_le_one (by exact_mod_cast h)]
    exact_mod_cast M.countP_le_length _

/-- Anti-monotonicity of support (spec §8): a subset is at least as frequent
as its superset. -/
theorem support_anti (M : List (Nat × Finset String)) {A B : Finset String}
    (h : A ⊆ B) : support M B ≤ support M A := by
  rw [support, support]
  rcases Nat.eq_zero_or_pos M.length with h0 | h0
  · simp [h0]
  · have hc : M.countP (fun g => decide (B ⊆ g.2))
        ≤ M.countP (fun g => decide (A ⊆ g.2)) := by
      refine List.countP_mono_left ?_
      intro g _ hg
      simp only [decide_eq_true_eq] at hg ⊢
      exact h.trans hg
    have hq : ((M.countP fun g => decide (B ⊆ g.2) : ℕ) : ℚ)
        ≤ ((M.countP fun g => decide (A ⊆ g.2) : ℕ) : ℚ) := by exact_mod_cast hc
    exact div_le_div_of_nonneg_right hq (by positivity)

/-! ## Membership characterisations for the miner and the rule generator -/

theorem mem_aprioriLevels {M : List (Nat × Finset String)} {ms : ℚ} :
    ∀ {fuel : Nat} {prev : List (Finset String)} {p : Finset String × ℚ},
      p ∈ aprioriLevels M ms fuel prev → p.2 = support M p.1 ∧ ms ≤ p.2 := by
  intro fuel
  induction fuel with
  | zero => intro prev p h; simp [aprioriLevels] at h
  | succ fuel ih =>
    intro prev p h
    rw [aprioriLevels] at h
    split at h
    · simp at h
    · rcases List.mem_append.mp h with h | h
      · rcases List.mem_filter.mp h with ⟨hmem, hms⟩
        rcases List.mem_map.mp hmem with ⟨c, _, hc⟩
        refine ⟨?_, of_decide_eq_true hms⟩
        rw [← hc]
      · exact ih h

theorem mem_frequentItemsets {M : List (Nat × Finset String)} {ms : ℚ}
    {p : Finset String × ℚ} (h : p ∈ frequentItemsets M ms) :
    p.2 = support M p.1 ∧ ms ≤ p.2 := by
  rw [frequentItemsets] at h
  rcases List.mem_append.mp h with h | h
  · rcases List.mem_filter.mp h with ⟨hmem, hms⟩
    rcases List.mem_map.mp hmem with ⟨i, _, hi⟩
    refine ⟨?_, of_decide_eq_true hms⟩
    rw [← hi]
  · exact mem_aprioriLevels h

theorem mem_antecedentsOf {S A : Finset String} (h : A ∈ antecedentsOf S) :
    A ⊆ S ∧ A ≠ ∅ ∧ A ≠ S := by
  rw [antecedentsOf, mem_sortBy] at h
  rcases List.mem_filter.mp h with ⟨hmem, hAS⟩
  rcases List.mem_map.mp hmem with ⟨l, hl, hlA⟩
  rcases of_decide_eq_true hAS with ⟨hne, hnS⟩
  refine ⟨?_, hne, hnS⟩
  intro a ha
  rw [← hlA] at ha
  have := (List.mem_sublists.mp hl).subset (List.mem_toFinset.mp ha)
  rw [itemsetKey, Finset.mem_sort] at this
  exact this

theorem mem_rawRules {M : List (Nat × Finset String)}
    {its : List (Finset String × ℚ)} {mc : ℚ} {r : Rule}
    (h : r ∈ rawRules M its mc) :
    ∃ p ∈ its, ∃ A : Finset String,
      A ⊆ p.1 ∧ A ≠ ∅ ∧ A ≠ p.1 ∧ 2 ≤ p.1.card ∧
      mc ≤ p.2 / support M A ∧
      r = ⟨A, p.1 \ A, p.2, p.2 / support M A,
        p.2 / support M A / support M (p.1 \ A)⟩ := by
  rw [rawRules] at h
  rcases List.mem_flatMap.mp h with ⟨p, hp, hr⟩
  refine ⟨p, hp, ?_⟩
  split at hr
  · rcases List.mem_filterMap.mp hr with ⟨A, hA, hsome⟩
    rcases mem_antecedentsOf hA with ⟨hsub, hne, hnS⟩
    refine ⟨A, hsub, hne, hnS, by assumption, ?_, ?_⟩
    · by_cases hc : mc ≤ p.2 / support M A
      · exact hc
      · rw [if_neg hc] at hsome; exact absurd hsome (by simp)
    · by_cases hc : mc ≤ p.2 / support M A
      · rw [if_pos hc] at hsome
        exact (Option.some_inj.mp hsome).symm
      · rw [if_neg hc] at hsome; exact absurd hsome (by simp)
  · simp at hr

theorem mem_finalRules {M : List (Nat × Finset String)}
    {its : List (Finset String × ℚ)} {mc : ℚ} {r : Rule}
    (h : r ∈ finalRules M its mc) :
    ∃ r₀ ∈ rawRules M its mc, r = roundRule r₀ := by
  rw [finalRules, mem_sortBy, generationOrderRules] at h
  rcases List.mem_map.mp h with ⟨r₀, hr₀, hr⟩
  exact ⟨r₀, hr₀, hr.symm⟩

/-! ## Projections of `run_apriori` -/

theorem run_apriori_caller_data (df : List Row) (ms mc : ℚ) :
    (run_apriori df ms mc).caller_data = df.map mutateRow := rfl

theorem run_apriori_itemsets (df : List Row) (ms mc : ℚ) :
    (run_apriori df ms mc).frequent_itemsets
      = frequentItemsets (matrixOf (preprocessedRows df)) ms := rfl

theorem run_apriori_rules (df : List Row) (ms mc : ℚ) :
    (run_apriori df ms mc).rules
      = finalRules (matrixOf (preprocessedRows df))
          (frequentItemsets (matrixOf (preprocessedRows df)) ms) mc := rfl

theorem run_apriori_binary_data (df : List Row) (ms mc : ℚ) :
    (run_apriori df ms mc).binary_data = matrixOf (preprocessedRows df) := rfl

theorem run_apriori_stats (df : List Row) (ms mc : ℚ) :
    (run_apriori df ms mc).stats = analyze_transactions (preprocessedRows df) := rfl

/-! ## Stability of the incidence matrix under redundant records -/

theorem matrixOf_append_presence (rows : List CRow) (c : CRow)
    (h : ∃ w ∈ rows, w.member = c.member ∧ w.item = c.item) :
    matrixOf (rows ++ [c]) = matrixOf rows := by
  obtain ⟨w, hw, hwm, hwi⟩ := h
  have hmem : c.member ∈ rows.map (fun r => r.member) :=
    List.mem_map.mpr ⟨w, hw, hwm⟩
  rw [matrixOf, matrixOf]
  have hgroups : dropDup ((rows ++ [c]).map fun r => r.member)
      = dropDup (rows.map fun r => r.member) := by
    rw [List.map_append]
    show dropDup ((rows.map fun r => r.member) ++ [c.member]) = _
    rw [dropDup_append_singleton, if_pos hmem, List.append_nil]
  rw [hgroups]
  refine List.map_congr_left ?_
  intro g hg
  by_cases hc : c.member = g
  · have hfilter : (rows ++ [c]).filter (fun r => decide (r.member = g))
        = rows.filter (fun r => decide (r.member = g)) ++ [c] := by
      rw [List.filter_append]
      congr 1
      simp [List.filter, hc]
    rw [hfilter, List.map_append]
    show (g, (_ ++ [c.item]).toFinset) = _
    rw [List.toFinset_append]
    have hitem : c.item
        ∈ ((rows.filter fun r => decide (r.member = g)).map fun r => r.item).toFinset := by
      rw [List.mem_toFinset]
      refine List.mem_map.mpr ⟨w, ?_, hwi⟩
      exact List.mem_filter.mpr ⟨hw, by simp [hwm, hc]⟩
    have : ([c.item] : List String).toFinset
        ⊆ ((rows.filter fun r => decide (r.member = g)).map fun r => r.item).toFinset := by
      intro a ha
      simp only [List.toFinset_cons, List.toFinset_nil, insert_emptyc_eq,
        Finset.mem_singleton] at ha
      rw [ha]
      exact hitem
    rw [Finset.union_eq_left.mpr this]
  · have hfilter : (rows ++ [c]).filter (fun r => decide (r.member = g))
        = rows.filter (fun r => decide (r.member = g)) := by
      rw [List.filter_append]
      have : ([c] : List CRow).filter (fun r => decide (r.member = g)) = [] := by
        simp [List.filter, hc]
      rw [this, List.append_nil]
    rw [hfilter]

/-! ## Concrete datasets used as witnesses -/

/-- The spec's concrete scenario (§8): four groups
g1={milk,bread}, g2={milk,butter}, g3={milk,bread,butter}, g4={bread}. -/
def scenarioDf : List Row :=
  [⟨1, "01-01-2024", "milk", 0⟩, ⟨1, "01-01-2024", "bread", 0⟩,
   ⟨2, "02-01-2024", "milk", 0⟩, ⟨2, "02-01-2024", "butter", 0⟩,
   ⟨3, "03-01-2024", "milk", 0⟩, ⟨3, "03-01-2024", "bread", 0⟩,
   ⟨3, "03-01-2024", "butter", 0⟩,
   ⟨4, "04-01-2024", "bread", 0⟩]

/-- A three-group dataset where the item `milk` has support 2/3, a value that
changes under rounding to three decimals. -/
def thirdsDf : List Row :=
  [⟨1, "01-01-2024", "milk", 0⟩, ⟨2, "01-01-2024", "milk", 0⟩,
   ⟨3, "01-01-2024", "bread", 0⟩]

/-- An empty input table. -/
def emptyDf : List Row := []

/-! ## The claims -/

set_option maxRecDepth 100000

/-- Claim C1: for every input transaction table and parameters `min_support`,
`min_confidence` in (0,1], every (itemset, support) pair returned by
`run_apriori` has support ≥ `min_support` (inclusive, on the unrounded value —
the tagged support and the recomputed exact support agree), and every returned
rule has unrounded confidence ≥ `min_confidence`. -/
theorem claim_C1_thresholds (df : List Row) (ms mc : ℚ)
    (hms0 : 0 < ms) (hms1 : ms ≤ 1) (hmc0 : 0 < mc) (hmc1 : mc ≤ 1) :
    (∀ p ∈ (run_apriori df ms mc).frequent_itemsets,
        ms ≤ p.2 ∧ ms ≤ support (matrixOf (preprocessedRows df)) p.1) ∧
    (∀ r ∈ (run_apriori df ms mc).rules,
        mc ≤ support (matrixOf (preprocessedRows df)) (r.antecedents ∪ r.consequents)
              / support (matrixOf (preprocessedRows df)) r.antecedents) := by
  constructor
  · intro p hp
    rw [run_apriori_itemsets] at hp
    obtain ⟨hsupp, hms⟩ := mem_frequentItemsets hp
    exact ⟨hms, hsupp ▸ hms⟩
  · intro r hr
    rw [run_apriori_rules] at hr
    obtain ⟨r₀, hr₀, hround⟩ := mem_finalRules hr
    obtain ⟨p, hp, A, hsub, hne, hnS, hcard, hconf, heq⟩ := mem_rawRules hr₀
    have hAnte : r.antecedents = A := by rw [hround, heq]; rfl
    have hCons : r.consequents = p.1 \ A := by rw [hround, heq]; rfl
    have hUnion : r.antecedents ∪ r.consequents = p.1 := by
      rw [hAnte, hCons]
      exact Finset.union_sdiff_of_subset hsub
    have hsupp := (mem_frequentItemsets hp).1
    rw [hUnion, hAnte, ← hsupp]
    exact hconf

/-- Witness for C1 at the spec's concrete scenario with
`min_support = 1/2`, `min_confidence = 3/5`. -/
theorem claim_C1_witness :
    ((0:ℚ) < 1/2 ∧ (1/2:ℚ) ≤ 1 ∧ (0:ℚ) < 3/5 ∧ (3/5:ℚ) ≤ 1) ∧
    (∀ p ∈ (run_apriori scenarioDf (1/2) (3/5)).frequent_itemsets,
        (1/2:ℚ) ≤ p.2 ∧
        (1/2:ℚ) ≤ support (matrixOf (preprocessedRows scenarioDf)) p.1) ∧
    (∀ r ∈ (run_apriori scenarioDf (1/2) (3/5)).rules,
        (3/5:ℚ) ≤ support (matrixOf (preprocessedRows scenarioDf))
                      (r.antecedents ∪ r.consequents)
              / support (matrixOf (preprocessedRows scenarioDf)) r.antecedents) :=
  ⟨⟨by norm_num, by norm_num, by norm_num, by norm_num⟩,
   claim_C1_thresholds scenarioDf (1/2) (3/5)
     (by norm_num) (by norm_num) (by norm_num) (by norm_num)⟩

/-- Claim C2: on the four-group dataset g1={milk,bread}, g2={milk,butter},
g3={milk,bread,butter}, g4={bread}, `run_apriori` with `min_support = 0.5`
returns exactly the frequent itemsets {milk} (0.75), {bread} (0.75),
{butter} (0.5), {milk,bread} (0.5), {milk,butter} (0.5) — so in particular
neither {bread,butter} nor {milk,bread,butter} — and with
`min_confidence = 0.6` exactly the rules milk→bread (confidence 0.667,
lift 0.889), bread→milk (0.667, 0.889), milk→butter (0.667, 1.333) and
butter→milk (1.0, 1.333); the computed collections are pinned down as
explicit lists (rules in the engine's lift-descending output order). -/
theorem claim_C2_scenario :
    (run_apriori scenarioDf (1/2) (3/5)).frequent_itemsets =
      [({"bread"}, 3/4), ({"milk"}, 3/4), ({"butter"}, 1/2),
       ({"bread", "milk"}, 1/2), ({"butter", "milk"}, 1/2)] ∧
    (run_apriori scenarioDf (1/2) (3/5)).rules =
      [⟨{"butter"}, {"milk"}, 1/2, 1, 1333/1000⟩,
       ⟨{"milk"}, {"butter"}, 1/2, 667/1000, 1333/1000⟩,
       ⟨{"bread"}, {"milk"}, 1/2, 667/1000, 889/1000⟩,
       ⟨{"milk"}, {"bread"}, 1/2, 667/1000, 889/1000⟩] := by
  with_unfolding_all decide

/-- Counterexample to claim C6: on `thirdsDf` the single frequent itemset
{milk} is tagged with its exact support 2/3, which differs from its value
rounded to three decimal places — so frequent itemsets are not tagged with
rounded supports. -/
theorem claim_C6_counterexample :
    (run_apriori thirdsDf (1/2) (1/2)).frequent_itemsets = [({"milk"}, 2/3)] ∧
    round3 (2/3) ≠ (2/3 : ℚ) := by
  with_unfolding_all decide

/-- Amended claim C6: every frequent itemset returned by `run_apriori` is
tagged with its exact, unrounded support (no rounding is applied to the
itemset collection by the source — only rule metrics are rounded), and the
comparison against `min_support` that decided its inclusion used that
unrounded value. -/
theorem claim_C6_amended (df : List Row) (ms mc : ℚ) :
    ∀ p ∈ (run_apriori df ms mc).frequent_itemsets,
      p.2 = support (matrixOf (preprocessedRows df)) p.1 ∧ ms ≤ p.2 := by
  intro p hp
  rw [run_apriori_itemsets] at hp
  exact mem_frequentItemsets hp

/-- Witness for the amended C6 at the itemset {milk} of `thirdsDf`. -/
theorem claim_C6_witness :
    (2:ℚ)/3 = support (matrixOf (preprocessedRows thirdsDf)) {"milk"} ∧
    (1:ℚ)/2 ≤ 2/3 :=
  claim_C6_amended thirdsDf (1/2) (1/2) ({"milk"}, 2/3)
    (by with_unfolding_all decide)

/-- Claim C3: for every input and parameters, the rule collection returned by
`run_apriori` is sorted by lift in descending order, and the rules of any
fixed lift value appear in exactly their first-generated order (the
generation enumerates itemsets in discovery order and antecedents by size
ascending, so equal-lift rules keep that stable order). -/
theorem claim_C3_rule_ordering (df : List Row) (ms mc : ℚ) :
    ((run_apriori df ms mc).rules).Pairwise (fun a b => b.lift ≤ a.lift) ∧
    ∀ v : ℚ, ((run_apriori df ms mc).rules).filter (fun r => decide (r.lift = v))
      = (generationOrderRules (matrixOf (preprocessedRows df))
          (frequentItemsets (matrixOf (preprocessedRows df)) ms) mc).filter
          (fun r => decide (r.lift = v)) := by
  constructor
  · rw [run_apriori_rules, finalRules]
    exact pairwise_sortBy (fun a b : Rule => b.lift ≤ a.lift)
      (fun a b => le_total b.lift a.lift)
      (fun hab hbc => le_trans hbc hab) _
  · intro v
    rw [run_apriori_rules, finalRules]
    exact filter_sortBy_key Rule.lift v _

/-- Claim C7: every rule returned by `run_apriori` has non-empty, disjoint
antecedent and consequent; their union is a frequent itemset (it appears in
the returned itemset collection and its unrounded support meets
`min_support`); the rule's confidence lies in [0,1]; and its lift is ≥ 0. -/
theorem claim_C7_rule_validity (df : List Row) (ms mc : ℚ) :
    ∀ r ∈ (run_apriori df ms mc).rules,
      r.antecedents ≠ ∅ ∧ r.consequents ≠ ∅ ∧
      Disjoint r.antecedents r.consequents ∧
      (r.antecedents ∪ r.consequents)
        ∈ ((run_apriori df ms mc).frequent_itemsets).map (fun p => p.1) ∧
      ms ≤ support (matrixOf (preprocessedRows df)) (r.antecedents ∪ r.consequents) ∧
      0 ≤ r.confidence ∧ r.confidence ≤ 1 ∧ 0 ≤ r.lift := by
  intro r hr
  rw [run_apriori_rules] at hr
  obtain ⟨r₀, hr₀, hround⟩ := mem_finalRules hr
  obtain ⟨p, hp, A, hsub, hne, hnS, hcard, hconf, heq⟩ := mem_rawRules hr₀
  obtain ⟨hsupp, hms⟩ := mem_frequentItemsets hp
  have hAnte : r.antecedents = A := by rw [hround, heq]; rfl
  have hCons : r.consequents = p.1 \ A := by rw [hround, heq]; rfl
  have hUnion : r.antecedents ∪ r.consequents = p.1 := by
    rw [hAnte, hCons]
    exact Finset.union_sdiff_of_subset hsub
  have hConf : r.confidence = round3 (p.2 / support (matrixOf (preprocessedRows df)) A) := by
    rw [hround, heq]; rfl
  have hLift : r.lift = round3 (p.2 / support (matrixOf (preprocessedRows df)) A
      / support (matrixOf (preprocessedRows df)) (p.1 \ A)) := by
    rw [hround, heq]; rfl
  have hconf0 : 0 ≤ p.2 / support (matrixOf (preprocessedRows df)) A := by
    refine div_nonneg ?_ (support_nonneg _ _)
    rw [hsupp]
    exact support_nonneg _ _
  have hconf1 : p.2 / support (matrixOf (preprocessedRows df)) A ≤ 1 := by
    by_cases hA : support (matrixOf (preprocessedRows df)) A = 0
    · rw [hA, div_zero]
      norm_num
    · have hApos : 0 < support (matrixOf (preprocessedRows df)) A :=
        lt_of_le_of_ne (support_nonneg _ _) (Ne.symm hA)
      rw [div_le_one hApos, hsupp]
      exact support_anti _ hsub
  refine ⟨hAnte ▸ hne, ?_, ?_, ?_, ?_, ?_, ?_, ?_⟩
  · rw [hCons]
    intro hemp
    rw [Finset.sdiff_eq_empty_iff_subset] at hemp
    exact hnS (Finset.Subset.antisymm hsub hemp)
  · rw [hAnte, hCons]
    exact Finset.disjoint_sdiff
  · rw [hUnion, run_apriori_itemsets]
    exact List.mem_map.mpr ⟨p, hp, rfl⟩
  · rw [hUnion, ← hsupp]
    exact hms
  · rw [hConf]
    exact round3_nonneg hconf0
  · rw [hConf]
    exact round3_le_one hconf1
  · rw [hLift]
    exact round3_nonneg (div_nonneg hconf0 (support_nonneg _ _))

/-- Witness for C7 at the rule butter→milk of the concrete scenario. -/
theorem claim_C7_witness :
    ((⟨{"butter"}, {"milk"}, 1/2, 1, 1333/1000⟩ : Rule)
        ∈ (run_apriori scenarioDf (1/2) (3/5)).rules) ∧
    (({"butter"} : Finset String) ≠ ∅ ∧ ({"milk"} : Finset String) ≠ ∅ ∧
      Disjoint ({"butter"} : Finset String) ({"milk"} : Finset String) ∧
      (({"butter"} : Finset String) ∪ {"milk"})
        ∈ ((run_apriori scenarioDf (1/2) (3/5)).frequent_itemsets).map (fun p => p.1) ∧
      (1:ℚ)/2 ≤ support (matrixOf (preprocessedRows scenarioDf))
          (({"butter"} : Finset String) ∪ {"milk"}) ∧
      (0:ℚ) ≤ 1 ∧ (1:ℚ) ≤ 1 ∧ (0:ℚ) ≤ 1333/1000) :=
  ⟨by with_unfolding_all decide,
   claim_C7_rule_validity scenarioDf (1/2) (3/5)
     ⟨{"butter"}, {"milk"}, 1/2, 1, 1333/1000⟩ (by with_unfolding_all decide)⟩

/-- The level loop started on an empty previous level yields nothing. -/
theorem aprioriLevels_nil (M : List (Nat × Finset String)) (ms : ℚ) :
    ∀ fuel : Nat, aprioriLevels M ms fuel [] = [] := by
  intro fuel
  cases fuel with
  | zero => rfl
  | succ n => rfl

/-- Counterexample to claim C4: calling `run_apriori` on the concrete scenario
with `min_support = 2` (outside (0,1]) surfaces no error at all — the run
completes, the statistics are computed (4 groups) and the incidence matrix is
built, the out-of-range threshold merely filtering every itemset out.  So no
`InvalidParameter` error is raised before (or instead of) preprocessing,
statistics computation and matrix construction. -/
theorem claim_C4_counterexample :
    (run_apriori scenarioDf 2 (1/2)).stats.total_transactions = 4 ∧
    (run_apriori scenarioDf 2 (1/2)).binary_data ≠ [] ∧
    (run_apriori scenarioDf 2 (1/2)).frequent_itemsets = [] ∧
    (run_apriori scenarioDf 2 (1/2)).rules = [] := by
  with_unfolding_all decide

/-- Amended claim C4: `run_apriori` performs no parameter validation at all.
The caller-visible frame, the incidence matrix and the statistics are computed
identically for every choice of `min_support`/`min_confidence` (in or out of
(0,1]); an out-of-range `min_support > 1` surfaces no error and simply yields
empty itemset and rule collections. -/
theorem claim_C4_no_validation (df : List Row) (ms mc ms2 mc2 : ℚ) :
    ((run_apriori df ms mc).caller_data = (run_apriori df ms2 mc2).caller_data ∧
     (run_apriori df ms mc).binary_data = (run_apriori df ms2 mc2).binary_data ∧
     (run_apriori df ms mc).stats = (run_apriori df ms2 mc2).stats) ∧
    (1 < ms → (run_apriori df ms mc).frequent_itemsets = [] ∧
              (run_apriori df ms mc).rules = []) := by
  refine ⟨⟨rfl, rfl, rfl⟩, ?_⟩
  intro hms
  have hseed : seedLevel (matrixOf (preprocessedRows df)) ms = [] := by
    rw [seedLevel, List.filter_eq_nil_iff]
    intro p hp
    rcases List.mem_map.mp hp with ⟨i, _, hi⟩
    have hle : p.2 ≤ 1 := by
      rw [← hi]
      exact support_le_one _ _
    simp only [decide_eq_true_eq]
    intro hcon
    exact absurd hle (not_le.mpr (lt_of_lt_of_le hms hcon))
  have hfi : (run_apriori df ms mc).frequent_itemsets = [] := by
    rw [run_apriori_itemsets, frequentItemsets, hseed]
    rw [List.nil_append, List.map_nil, aprioriLevels_nil]
  refine ⟨hfi, ?_⟩
  have : (run_apriori df ms mc).rules
      = finalRules (matrixOf (preprocessedRows df))
          ((run_apriori df ms mc).frequent_itemsets) mc := run_apriori_rules df ms mc
  rw [this, hfi]
  rfl

/-- Witness for the amended C4 at `min_support = 2`. -/
theorem claim_C4_witness :
    (1:ℚ) < 2 ∧
    (run_apriori scenarioDf 2 1).frequent_itemsets = [] ∧
    (run_apriori scenarioDf 2 1).rules = [] :=
  ⟨by norm_num, (claim_C4_no_validation scenarioDf 2 1 (1/2) (1/2)).2 (by norm_num)⟩

/-- Claim C5: an input with zero normalized transaction records (and valid
parameters) yields an empty incidence matrix, empty itemset and rule
collections, and zero-valued statistics; no exception is raised (the whole
model is total, and the guarded mean evaluates to 0). -/
theorem claim_C5_empty_input (df : List Row) (ms mc : ℚ)
    (hms0 : 0 < ms) (hms1 : ms ≤ 1) (hmc0 : 0 < mc) (hmc1 : mc ≤ 1)
    (hempty : preprocessedRows df = []) :
    (run_apriori df ms mc).binary_data = [] ∧
    (run_apriori df ms mc).frequent_itemsets = [] ∧
    (run_apriori df ms mc).rules = [] ∧
    (run_apriori df ms mc).stats = ⟨0, 0, 0, [], []⟩ := by
  refine ⟨?_, ?_, ?_, ?_⟩
  · rw [run_apriori_binary_data, hempty]
    rfl
  · rw [run_apriori_itemsets, hempty]
    rfl
  · rw [run_apriori_rules, hempty]
    rfl
  · rw [run_apriori_stats, hempty]
    rfl

/-- Witness for C5 at the empty table. -/
theorem claim_C5_witness :
    preprocessedRows emptyDf = [] ∧
    ((run_apriori emptyDf (1/2) (1/2)).binary_data = [] ∧
     (run_apriori emptyDf (1/2) (1/2)).frequent_itemsets = [] ∧
     (run_apriori emptyDf (1/2) (1/2)).rules = [] ∧
     (run_apriori emptyDf (1/2) (1/2)).stats = ⟨0, 0, 0, [], []⟩) :=
  ⟨rfl, claim_C5_empty_input emptyDf (1/2) (1/2)
    (by norm_num) (by norm_num) (by norm_num) (by norm_num) rfl⟩

/-- Claim C9: `run_apriori` mutates the caller's DataFrame in place: after the
call the argument's `Date` column holds the parsed datetime values and its
`itemDescription` column the stripped, lower-cased strings, while every other
column (`Member_number` and the extra column) is unchanged; the
deduplication/missing-value-drop steps act only on the internal copy, so the
caller's frame keeps all its rows. -/
theorem claim_C9_frame_effect (df : List Row) (ms mc : ℚ) :
    (run_apriori df ms mc).caller_data
      = df.map (fun r => ⟨r.member, parseDate r.date, cleanItem r.item, r.extra⟩) ∧
    ((run_apriori df ms mc).caller_data).map (fun p => (p.member, p.extra))
      = df.map (fun r => (r.member, r.extra)) ∧
    ((run_apriori df ms mc).caller_data).length = df.length := by
  refine ⟨rfl, ?_, ?_⟩
  · rw [run_apriori_caller_data, List.map_map]
    rfl
  · rw [run_apriori_caller_data, List.length_map]

/-- Claim C10: the `most_common_items` statistic of `analyze_transactions`
(and hence of `run_apriori`) has exactly `min 10 (number of distinct items)`
entries, each entry maps an item to its occurrence count, every item outside
the statistic has a count no larger than any item inside it (they are the
top-count items), and it therefore never holds more than 10 items. -/
theorem claim_C10_most_common :
    (∀ rows : List CRow,
      (analyze_transactions rows).most_common_items.length
          = min 10 (dropDup (rows.map fun r => r.item)).length ∧
      (∀ e ∈ (analyze_transactions rows).most_common_items,
          e.2 = rows.countP fun r => decide (r.item = e.1)) ∧
      (∀ e ∈ (analyze_transactions rows).most_common_items,
        ∀ j ∈ dropDup (rows.map fun r => r.item),
          j ∉ (analyze_transactions rows).most_common_items.map (fun e => e.1) →
          (rows.countP fun r => decide (r.item = j)) ≤ e.2)) ∧
    (∀ (df : List Row) (ms mc : ℚ),
      (run_apriori df ms mc).stats = analyze_transactions (preprocessedRows df)) := by
  constructor
  · intro rows
    have hmci : (analyze_transactions rows).most_common_items
        = (value_counts rows).take 10 := rfl
    have hlen : (value_counts rows).length
        = (dropDup (rows.map fun r => r.item)).length := by
      rw [value_counts]
      rw [(sortBy_perm _ _).length_eq, List.length_map]
    refine ⟨?_, ?_, ?_⟩
    · rw [hmci, List.length_take, hlen]
    · intro e he
      rw [hmci] at he
      have he2 : e ∈ value_counts rows := List.mem_of_mem_take he
      rw [value_counts, mem_sortBy] at he2
      rcases List.mem_map.mp he2 with ⟨i, _, hi⟩
      rw [← hi]
    · intro e he j hj hjout
      rw [hmci] at he hjout
      have hjc : (j, rows.countP fun r => decide (r.item = j)) ∈ value_counts rows := by
        rw [value_counts, mem_sortBy]
        exact List.mem_map.mpr ⟨j, hj, rfl⟩
      have hsplit : value_counts rows
          = (value_counts rows).take 10 ++ (value_counts rows).drop 10 :=
        (List.take_append_drop 10 (value_counts rows)).symm
      have hdrop : (j, rows.countP fun r => decide (r.item = j))
          ∈ (value_counts rows).drop 10 := by
        rcases List.mem_append.mp (hsplit ▸ hjc) with h | h
        · exact absurd (List.mem_map.mpr ⟨_, h, rfl⟩) hjout
        · exact h
      have hpair : ((value_counts rows).take 10 ++ (value_counts rows).drop 10).Pairwise
          (fun a b : String × Nat => b.2 ≤ a.2) := by
        rw [List.take_append_drop]
        rw [value_counts]
        exact pairwise_sortBy (fun a b : String × Nat => b.2 ≤ a.2)
          (fun a b => le_total b.2 a.2) (fun hab hbc => le_trans hbc hab) _
      exact ((List.pairwise_append.mp hpair).2.2 e he _ hdrop :)
  · intro df ms mc
    exact run_apriori_stats df ms mc

/-- Witness for C10 at the concrete scenario: `milk` occurs 3 times and is in
the statistic, and the statistic `run_apriori` returns is the one
`analyze_transactions` computes. -/
theorem claim_C10_witness :
    ((3:Nat) = (preprocessedRows scenarioDf).countP fun r => decide (r.item = "milk")) ∧
    (run_apriori scenarioDf (1/2) (3/5)).stats
      = analyze_transactions (preprocessedRows scenarioDf) :=
  ⟨claim_C10_most_common.1 (preprocessedRows scenarioDf) |>.2.1 ("milk", 3)
      (by with_unfolding_all decide),
   claim_C10_most_common.2 scenarioDf (1/2) (3/5)⟩

/-- Claim C8: appending to the dataset a record whose (group, item) pair is
already present in a normalized record of the dataset (one whose date parses,
so the spec's Normalizer keeps it) leaves the boolean incidence matrix, the
frequent itemsets and the rules of `run_apriori` unchanged, whatever the date
and extra column of the new record: purchase multiplicity within a group is
ignored, only presence per group matters. -/
theorem claim_C8_multiplicity (df : List Row) (rNew : Row) (ms mc : ℚ)
    (h : ∃ w ∈ df, w.member = rNew.member ∧ cleanItem w.item = cleanItem rNew.item
          ∧ (parseDate w.date).isSome) :
    (run_apriori (df ++ [rNew]) ms mc).binary_data
        = (run_apriori df ms mc).binary_data ∧
    (run_apriori (df ++ [rNew]) ms mc).frequent_itemsets
        = (run_apriori df ms mc).frequent_itemsets ∧
    (run_apriori (df ++ [rNew]) ms mc).rules = (run_apriori df ms mc).rules := by
  obtain ⟨w, hw, hwm, hwi, hwd⟩ := h
  have hrows : matrixOf (preprocessedRows (df ++ [rNew]))
      = matrixOf (preprocessedRows df) := by
    have hmap : (df ++ [rNew]).map mutateRow
        = df.map mutateRow ++ [mutateRow rNew] := by
      rw [List.map_append]
      rfl
    have hdd : dropDup ((df ++ [rNew]).map mutateRow)
        = dropDup (df.map mutateRow)
          ++ (if mutateRow rNew ∈ df.map mutateRow then [] else [mutateRow rNew]) := by
      rw [hmap, dropDup_append_singleton]
    by_cases hxin : mutateRow rNew ∈ df.map mutateRow
    · have : preprocessedRows (df ++ [rNew]) = preprocessedRows df := by
        show dropna (dropDup ((df ++ [rNew]).map mutateRow)) = _
        rw [hdd, if_pos hxin, List.append_nil]
        rfl
      rw [this]
    · rcases hd : parseDate rNew.date with _ | d
      · have : preprocessedRows (df ++ [rNew]) = preprocessedRows df := by
          show dropna (dropDup ((df ++ [rNew]).map mutateRow)) = _
          rw [hdd, if_neg hxin, dropna, List.filterMap_append]
          have hnil : List.filterMap
              (fun p : PRow => p.date.map fun dd => CRow.mk p.member dd p.item p.extra)
              [mutateRow rNew] = [] := by
            simp [mutateRow, hd]
          rw [hnil, List.append_nil]
          rfl
        rw [this]
      · have hc : preprocessedRows (df ++ [rNew]) = preprocessedRows df
            ++ [⟨rNew.member, d, cleanItem rNew.item, rNew.extra⟩] := by
          show dropna (dropDup ((df ++ [rNew]).map mutateRow)) = _
          rw [hdd, if_neg hxin, dropna, List.filterMap_append]
          have hone : List.filterMap
              (fun p : PRow => p.date.map fun dd => CRow.mk p.member dd p.item p.extra)
              [mutateRow rNew]
              = [⟨rNew.member, d, cleanItem rNew.item, rNew.extra⟩] := by
            simp [mutateRow, hd]
          rw [hone]
          rfl
        rw [hc]
        refine matrixOf_append_presence _ _ ?_
        obtain ⟨d0, hd0⟩ := Option.isSome_iff_exists.mp hwd
        refine ⟨⟨w.member, d0, cleanItem w.item, w.extra⟩, ?_, hwm, hwi⟩
        rw [preprocessedRows, preprocess_data]
        refine List.mem_filterMap.mpr ⟨mutateRow w, ?_, ?_⟩
        · exact mem_dropDup.mpr (List.mem_map.mpr ⟨w, hw, rfl⟩)
        · simp [mutateRow, hd0]
  refine ⟨?_, ?_, ?_⟩
  · rw [run_apriori_binary_data, run_apriori_binary_data, hrows]
  · rw [run_apriori_itemsets, run_apriori_itemsets, hrows]
  · rw [run_apriori_rules, run_apriori_rules, hrows]

/-- A one-row dataset and a redundant extra record for the same
(group, item) pair with a different date and extra column. -/
def dupDf : List Row := [⟨1, "01-01-2024", "milk", 0⟩]

/-- The redundant record appended in the C8 witness. -/
def dupRow : Row := ⟨1, "05-06-2023", "milk", 7⟩

/-- Witness for C8: appending `dupRow` to `dupDf` changes neither the matrix
nor the itemsets nor the rules. -/
theorem claim_C8_witness :
    (∃ w ∈ dupDf, w.member = dupRow.member
        ∧ cleanItem w.item = cleanItem dupRow.item ∧ (parseDate w.date).isSome) ∧
    ((run_apriori (dupDf ++ [dupRow]) (1/2) (1/2)).binary_data
        = (run_apriori dupDf (1/2) (1/2)).binary_data ∧
     (run_apriori (dupDf ++ [dupRow]) (1/2) (1/2)).frequent_itemsets
        = (run_apriori dupDf (1/2) (1/2)).frequent_itemsets ∧
     (run_apriori (dupDf ++ [dupRow]) (1/2) (1/2)).rules
        = (run_apriori dupDf (1/2) (1/2)).rules) :=
  ⟨by with_unfolding_all decide,
   claim_C8_multiplicity dupDf dupRow (1/2) (1/2) (by with_unfolding_all decide)⟩

end SmartGrocer
